import Mathlib

/-!
Shallow embedding of the migration-lifecycle core of
`postgresql-schema-migration-pulumi` (src/index.ts).

External capabilities (the `pg` client, `crypto.createHash('sha256')`,
the filesystem, clocks) are passed in as explicit function parameters;
everything else is translated directly from the TypeScript source.
-/

namespace PgMigration

/-- The `up`/`down` token of a migration filename. -/
inductive Direction where
  | up
  | down
deriving DecidableEq, Repr

/-- A character matched by the regex metacharacter `.` (anything but a
line terminator), as in `V(\d+)__(.+)\.(up|down)\.sql`. -/
def regexDotChar (c : Char) : Bool :=
  !(c == '\n') && !(c == '\r') && !(c.val == 8232) && !(c.val == 8233)

/-- Characters of the literal suffix `.up.sql`. -/
def sfxUp : List Char := ['.', 'u', 'p', '.', 's', 'q', 'l']

/-- Characters of the literal suffix `.down.sql`. -/
def sfxDown : List Char := ['.', 'd', 'o', 'w', 'n', '.', 's', 'q', 'l']

/-- Strip a required suffix from a character list, or fail. -/
def stripSuffix (cs sfx : List Char) : Option (List Char) :=
  if sfx.length ≤ cs.length ∧ cs.drop (cs.length - sfx.length) = sfx then
    some (cs.take (cs.length - sfx.length))
  else
    none

/-- Continue parsing a stem after the leading `V`: `v` is the maximal
digit run, `tail` the rest; the tail must be `__` followed by a
nonempty description. -/
def parseAfterV (v tail : List Char) : Option (List Char × List Char) :=
  match tail with
  | [] => none
  | [_] => none
  | a :: b :: d =>
    if v = [] then none
    else if a = '_' ∧ b = '_' ∧ d ≠ [] ∧ d.all regexDotChar then some (v, d) else none

/-- Parse the part of a filename before the `.up.sql` / `.down.sql`
suffix against `V(\d+)__(.+)`. -/
def parseStem (stem : List Char) : Option (List Char × List Char) :=
  match stem with
  | c :: rest =>
    if c = 'V' then parseAfterV (rest.takeWhile Char.isDigit) (rest.dropWhile Char.isDigit)
    else none
  | [] => none

/-- The filename pattern `^V(\d+)__(.+)\.(up|down)\.sql$` of
`loadMigrationFiles` (src/index.ts line 173), as a total parser on the
characters of the filename. -/
def parseMigrationFilename (cs : List Char) : Option (List Char × List Char × Direction) :=
  match stripSuffix cs sfxUp with
  | some stem => Option.map (fun p => (p.1, p.2, Direction.up)) (parseStem stem)
  | none =>
    match stripSuffix cs sfxDown with
    | some stem => Option.map (fun p => (p.1, p.2, Direction.down)) (parseStem stem)
    | none => none

/-- Lexicographic comparison of character lists, the default
`Array.prototype.sort()` comparator on strings. -/
def lexLE (a b : List Char) : Bool :=
  match a, b with
  | [], _ => true
  | _ :: _, [] => false
  | c :: a1, d :: b1 => if c = d then lexLE a1 b1 else decide (c < d)

/-- The default string order used by `readdirSync(path).sort()`
(src/index.ts line 167). -/
def fileLE (a b : String) : Prop := lexLE a.data b.data = true

instance : DecidableRel fileLE := fun a b =>
  inferInstanceAs (Decidable (lexLE a.data b.data = true))

/-- Numeric value of a digit string, the order key used by
`localeCompare(_, undefined, { numeric: true })` on version strings. -/
def digitsToNat (cs : List Char) : Nat :=
  cs.foldl (fun n c => n * 10 + (c.toNat - 48)) 0

/-- `description.replace(/_/g, '-')` (src/index.ts line 182). -/
def hyphenate (d : List Char) : String :=
  String.mk (d.map fun c => if c = '_' then '-' else c)

/-- `path.join` as used on a directory and a plain filename. -/
def pathJoin (a b : String) : String := a ++ "/" ++ b

/-- The grouping key `V{version}__{description}` (src/index.ts line 177). -/
def migKey (v d : List Char) : String :=
  String.mk ('V' :: (v ++ '_' :: '_' :: d))

/-- The up-script filename that produces the group key `migKey v d`. -/
def upFileName (v d : List Char) : String :=
  String.mk (('V' :: (v ++ '_' :: '_' :: d)) ++ sfxUp)

/-- Discovery-time catalog entry (interface `MigrationFile`). -/
structure MigrationFile where
  version : String
  name : String
  upPath : String
  downPath : Option String
deriving DecidableEq, Repr

/-- The fresh map entry created on first sight of a group key
(src/index.ts lines 180-185). -/
def initEntry (v d : List Char) : MigrationFile :=
  { version := String.mk v, name := hyphenate d, upPath := "", downPath := none }

/-- Assign the parsed file to the `upPath` or `downPath` of its group
(src/index.ts lines 191-195). -/
def assignPath (mf : MigrationFile) : Direction → String → MigrationFile
  | Direction.up, fp => { mf with upPath := fp }
  | Direction.down, fp => { mf with downPath := some fp }

/-- One iteration of the grouping loop of `loadMigrationFiles`
(src/index.ts lines 170-197); the insertion-ordered JS `Map` is an
association list. -/
def processFile (dir : String) (m : List (String × MigrationFile)) (file : String) :
    List (String × MigrationFile) :=
  match parseMigrationFilename file.data with
  | none => m
  | some (v, d, dirn) =>
    let key := migKey v d
    let m1 := if ∃ p ∈ m, p.1 = key then m else m ++ [(key, initEntry v d)]
    m1.map fun p => if p.1 = key then (p.1, assignPath p.2 dirn (pathJoin dir file)) else p

/-- Numeric sort key of a catalog entry's version. -/
def versionNum (mf : MigrationFile) : Nat := digitsToNat mf.version.data

/-- The comparator `a.version.localeCompare(b.version, undefined,
{ numeric: true })` as a binary relation (non-strict order). -/
def vLE (a b : MigrationFile) : Prop := versionNum a ≤ versionNum b

instance : DecidableRel vLE := fun a b =>
  inferInstanceAs (Decidable (versionNum a ≤ versionNum b))

instance : IsTotal MigrationFile vLE := ⟨fun a b => Nat.le_total (versionNum a) (versionNum b)⟩

instance : IsTrans MigrationFile vLE := ⟨fun _ _ _ => Nat.le_trans⟩

/-- `FileMigrationManager.loadMigrationFiles` (src/index.ts lines
162-208) applied to the listing of the migrations directory: sort the
listing, group files by `V{version}__{description}`, drop groups with
no up script, and stable-sort by numeric version. -/
def loadMigrationFiles (dir : String) (files : List String) : List MigrationFile :=
  let sorted := files.insertionSort fileLE
  let groups := sorted.foldl (processFile dir) []
  ((groups.map Prod.snd).filter fun mf => mf.upPath ≠ "").insertionSort vLE

/-! ## Lifecycle operations of the dynamic resource provider

The pg client is a capability `exec : String → Except String Unit`, the
SHA-256 fingerprint a capability `hash : String → String`, and the
clocks explicit parameters, as in §1 of the spec; the control flow is
translated from `provider` in src/index.ts. -/

/-- Inputs of a `SchemaVersion` resource (interface `SchemaVersionArgs`). -/
structure SchemaVersionArgs where
  version : String
  name : String
  upSql : String
  downSql : Option String
  database : String
deriving DecidableEq, Repr

/-- Persisted outputs of a `SchemaVersion` resource (interface
`SchemaVersionState`). -/
structure SchemaVersionState where
  version : String
  name : String
  upSqlChecksum : String
  downSqlChecksum : Option String
  appliedAt : String
deriving DecidableEq, Repr

/-- `pulumi.dynamic.CreateResult`. -/
structure CreateResult where
  id : String
  outs : SchemaVersionState
deriving DecidableEq, Repr

/-- `pulumi.dynamic.DiffResult` (only the `changes` field is produced). -/
structure DiffResult where
  changes : Bool
deriving DecidableEq, Repr

/-- The error message wrapping a failed apply (src/index.ts line 76). -/
def failApplyMsg (v e : String) : String :=
  "Failed to apply migration " ++ v ++ ": " ++ e

/-- `provider.create` (src/index.ts lines 44-78): execute the up
script; on success fingerprint both scripts and return the new record,
on failure wrap the error with the migration version. -/
def create (exec : String → Except String Unit) (hash : String → String)
    (nowIso : String) (nowMs : Nat) (inputs : SchemaVersionArgs) :
    Except String CreateResult :=
  match exec inputs.upSql with
  | Except.error e => Except.error (failApplyMsg inputs.version e)
  | Except.ok _ =>
    Except.ok
      { id := inputs.database ++ "-" ++ inputs.version ++ "-" ++ toString nowMs,
        outs :=
          { version := inputs.version,
            name := inputs.name,
            upSqlChecksum := hash inputs.upSql,
            downSqlChecksum := inputs.downSql.map hash,
            appliedAt := nowIso } }

/-- The UP checksum mismatch message (src/index.ts line 92). -/
def upMismatchMsg (v : String) : String :=
  "Migration " ++ v ++ " UP SQL checksum mismatch. SchemaVersion resources are immutable once applied."

/-- The DOWN checksum mismatch message (src/index.ts line 96). -/
def downMismatchMsg (v : String) : String :=
  "Migration " ++ v ++ " DOWN SQL checksum mismatch. SchemaVersion resources are immutable once applied."

/-- `provider.diff` (src/index.ts lines 80-100): recompute both
fingerprints of the proposed scripts, fail on either mismatch against
the stored record, else report no changes. -/
def diff (hash : String → String) (_id : String) (olds : SchemaVersionState)
    (news : SchemaVersionArgs) : Except String DiffResult :=
  let currentUpChecksum := hash news.upSql
  let currentDownChecksum := news.downSql.map hash
  if olds.upSqlChecksum ≠ currentUpChecksum then
    Except.error (upMismatchMsg news.version)
  else if olds.downSqlChecksum ≠ currentDownChecksum then
    Except.error (downMismatchMsg news.version)
  else
    Except.ok { changes := false }

/-- The update rejection message (src/index.ts line 103). -/
def cannotUpdateMsg (v : String) : String :=
  "Migration " ++ v ++ " cannot be updated. SchemaVersion resources are immutable."

/-- `pulumi.dynamic.UpdateResult`. -/
structure UpdateResult where
  outs : Option SchemaVersionState
deriving DecidableEq, Repr

/-- `provider.update` (src/index.ts lines 102-104). -/
def update (_id : String) (_olds : SchemaVersionState) (news : SchemaVersionArgs) :
    Except String UpdateResult :=
  Except.error (cannotUpdateMsg news.version)

/-- Observable outcome of `provider.delete`: either a skipped rollback
(with the logged warning) or a successfully executed down script. -/
inductive DeleteOutcome where
  | skipped (warning : String)
  | rolledBack (downSql : String)
deriving DecidableEq, Repr

/-- The warning logged when no down migration is found
(src/index.ts line 112). -/
def noDownMsg (v : String) : String :=
  "No down migration found for " ++ v ++ ", skipping rollback"

/-- `provider.delete` (src/index.ts lines 106-124): re-scan the
migrations directory, find the first catalog entry with the record's
version, and execute its down script if it resolves to an existing
file; otherwise warn and no-op. `fs` is the filesystem capability
(`existsSync` + `readFileSync`). -/
def delete (dir : String) (listing : List String) (fs : String → Option String)
    (exec : String → Except String Unit) (_id : String) (props : SchemaVersionState) :
    Except String DeleteOutcome :=
  let migrationFiles := loadMigrationFiles dir listing
  match migrationFiles.find? (fun m => m.version == props.version) with
  | none => Except.ok (DeleteOutcome.skipped (noDownMsg props.version))
  | some migration =>
    match migration.downPath with
    | none => Except.ok (DeleteOutcome.skipped (noDownMsg props.version))
    | some dp =>
      match fs dp with
      | none => Except.ok (DeleteOutcome.skipped (noDownMsg props.version))
      | some downSql =>
        match exec downSql with
        | Except.error e => Except.error e
        | Except.ok _ => Except.ok (DeleteOutcome.rolledBack downSql)

/-- Declarative resource emitted by `createMigrationResources`: the
constructor arguments of a `SchemaVersion` together with its declared
`dependsOn` edges (resources identified by resource name). -/
structure ResourceDecl where
  resourceName : String
  version : String
  name : String
  upSql : String
  downSql : Option String
  database : String
  dependsOn : List String
deriving DecidableEq, Repr

/-- The final path component, minus a trailing extension. -/
def lastComponentAux : List Char → List Char → List Char
  | [], acc => acc.reverse
  | '/' :: rest, _ => lastComponentAux rest []
  | c :: rest, acc => lastComponentAux rest (c :: acc)

/-- `path.basename(p, sfx)` as used on up-script paths
(src/index.ts line 220). -/
def basename (p sfx : String) : String :=
  let b := lastComponentAux p.data []
  match stripSuffix b sfx.data with
  | some stem => if stem = [] then String.mk b else String.mk stem
  | none => String.mk b

/-- `FileMigrationManager.readSqlFile` (src/index.ts lines 239-244). -/
def readSqlFile (fs : String → Option String) (filePath : String) : Except String String :=
  match fs filePath with
  | none => Except.error ("SQL file not found: " ++ filePath)
  | some s => Except.ok s

/-- Read the optional down script of a catalog entry
(src/index.ts lines 216-218). -/
def readDownFile (fs : String → Option String) : Option String → Except String (Option String)
  | none => Except.ok none
  | some dp =>
    match readSqlFile fs dp with
    | Except.error e => Except.error e
    | Except.ok s => Except.ok (some s)

/-- The resource-building loop of `createMigrationResources`
(src/index.ts lines 210-237), carrying the previous resource's name as
the pending `dependsOn` edge. -/
def buildResources (fs : String → Option String) (db : String) :
    List MigrationFile → Option String → Except String (List ResourceDecl)
  | [], _ => Except.ok []
  | mf :: rest, prev =>
    match readSqlFile fs mf.upPath with
    | Except.error e => Except.error e
    | Except.ok upSql =>
      match readDownFile fs mf.downPath with
      | Except.error e => Except.error e
      | Except.ok downSql =>
        match buildResources fs db rest (some (basename mf.upPath ".sql")) with
        | Except.error e => Except.error e
        | Except.ok rs =>
          Except.ok
            ({ resourceName := basename mf.upPath ".sql",
               version := mf.version,
               name := mf.name,
               upSql := upSql,
               downSql := downSql,
               database := db,
               dependsOn := prev.toList } :: rs)

/-- `FileMigrationManager.createMigrationResources`
(src/index.ts lines 210-237). -/
def createMigrationResources (fs : String → Option String) (db : String)
    (catalog : List MigrationFile) : Except String (List ResourceDecl) :=
  buildResources fs db catalog none

/-! ## Order properties of the listing sort -/

theorem lexLE_total (a b : List Char) : lexLE a b = true ∨ lexLE b a = true := by
  induction a generalizing b with
  | nil => left; rfl
  | cons c a1 ih =>
    cases b with
    | nil => right; rfl
    | cons d b1 =>
      by_cases hcd : c = d
      · subst hcd
        rcases ih b1 with h | h
        · left; simpa [lexLE] using h
        · right; simpa [lexLE] using h
      · rcases lt_or_gt_of_ne hcd with h | h
        · left; simp [lexLE, hcd, h]
        · right; simp [lexLE, Ne.symm hcd, h]

theorem lexLE_trans {a b c : List Char} (h1 : lexLE a b = true) (h2 : lexLE b c = true) :
    lexLE a c = true := by
  induction a generalizing b c with
  | nil => rfl
  | cons x a1 ih =>
    cases b with
    | nil => simp [lexLE] at h1
    | cons y b1 =>
      cases c with
      | nil => simp [lexLE] at h2
      | cons z c1 =>
        by_cases hxy : x = y
        · subst hxy
          by_cases hyz : x = z
          · subst hyz
            simp only [lexLE, if_pos rfl] at h1 h2 ⊢
            exact ih h1 h2
          · simp only [lexLE, if_pos rfl] at h1
            simp only [lexLE, if_neg hyz] at h2 ⊢
            exact h2
        · simp only [lexLE, if_neg hxy, decide_eq_true_iff] at h1
          by_cases hyz : y = z
          · subst hyz
            simp [lexLE, hxy, h1]
          · simp only [lexLE, if_neg hyz, decide_eq_true_iff] at h2
            have hxz : x < z := lt_trans h1 h2
            simp [lexLE, ne_of_lt hxz, hxz]

theorem lexLE_antisymm {a b : List Char} (h1 : lexLE a b = true) (h2 : lexLE b a = true) :
    a = b := by
  induction a generalizing b with
  | nil =>
    cases b with
    | nil => rfl
    | cons d b1 => simp [lexLE] at h2
  | cons c a1 ih =>
    cases b with
    | nil => simp [lexLE] at h1
    | cons d b1 =>
      by_cases hcd : c = d
      · subst hcd
        simp only [lexLE, if_pos rfl] at h1 h2
        rw [ih h1 h2]
      · simp only [lexLE, if_neg hcd, decide_eq_true_iff] at h1
        simp only [lexLE, if_neg (Ne.symm hcd), decide_eq_true_iff] at h2
        exact absurd h2 (lt_asymm h1)

instance : IsTotal String fileLE := ⟨fun a b => lexLE_total a.data b.data⟩

instance : IsTrans String fileLE := ⟨fun _ _ _ => lexLE_trans⟩

instance : IsAntisymm String fileLE :=
  ⟨fun a b h1 h2 => by
    cases a with
    | mk da =>
      cases b with
      | mk db => exact congrArg String.mk (lexLE_antisymm h1 h2)⟩

/-! ## Properties of the filename parser -/

/-- The filename suffix produced by a direction token. -/
def dirSuffix : Direction → List Char
  | Direction.up => sfxUp
  | Direction.down => sfxDown

theorem str_data_append (a b : String) : (a ++ b).data = a.data ++ b.data := by
  cases a; cases b; rfl

theorem str_eq_of_data {a b : String} (h : a.data = b.data) : a = b := by
  cases a; cases b; exact congrArg String.mk h

theorem stripSuffix_eq_some {cs sfx stem : List Char} (h : stripSuffix cs sfx = some stem) :
    cs = stem ++ sfx := by
  unfold stripSuffix at h
  split at h
  · rename_i hc
    have hstem : stem = cs.take (cs.length - sfx.length) := ((Option.some.injEq _ _).mp h).symm
    subst hstem
    conv_lhs => rw [← List.take_append_drop (cs.length - sfx.length) cs]
    rw [hc.2]
  · cases h

theorem parseAfterV_eq_some {v t v1 d : List Char} (h : parseAfterV v t = some (v1, d)) :
    v1 = v ∧ v ≠ [] ∧ t = '_' :: '_' :: d ∧ d ≠ [] := by
  rcases t with _ | ⟨a, _ | ⟨b, d0⟩⟩
  · simp [parseAfterV] at h
  · simp [parseAfterV] at h
  · rw [parseAfterV] at h
    split at h
    · cases h
    · split at h
      · rename_i hv hcond
        obtain ⟨ha, hb, hd0, _⟩ := hcond
        simp only [Option.some.injEq, Prod.mk.injEq] at h
        obtain ⟨h1, h2⟩ := h
        subst h1
        subst h2
        exact ⟨rfl, hv, by rw [ha, hb], hd0⟩
      · cases h

theorem parseStem_eq_some {stem v d : List Char} (h : parseStem stem = some (v, d)) :
    stem = 'V' :: (v ++ '_' :: '_' :: d) ∧ v ≠ [] ∧ v.all Char.isDigit = true ∧ d ≠ [] := by
  cases stem with
  | nil => cases h
  | cons c rest =>
    rw [parseStem] at h
    split at h
    · rename_i hc
      obtain ⟨hv1, hvne, ht, hdne⟩ := parseAfterV_eq_some h
      subst hc
      have hrest : rest = v ++ '_' :: '_' :: d := by
        rw [hv1, ← ht]
        exact (List.takeWhile_append_dropWhile Char.isDigit rest).symm
      refine ⟨by rw [hrest], ?_, ?_, hdne⟩
      · rw [hv1]; exact hvne
      · rw [hv1]; exact List.all_takeWhile
    · cases h

theorem parseMigrationFilename_eq_some {cs v d : List Char} {dirn : Direction}
    (h : parseMigrationFilename cs = some (v, d, dirn)) :
    cs = ('V' :: (v ++ '_' :: '_' :: d)) ++ dirSuffix dirn
    ∧ v ≠ [] ∧ v.all Char.isDigit = true ∧ d ≠ [] := by
  cases hup : stripSuffix cs sfxUp with
  | some stem =>
    cases hps : parseStem stem with
    | none => simp [parseMigrationFilename, hup, hps] at h
    | some p =>
      obtain ⟨pv, pd⟩ := p
      simp only [parseMigrationFilename, hup, hps, Option.map_some', Option.some.injEq,
        Prod.mk.injEq] at h
      obtain ⟨h1, h2, h3⟩ := h
      subst h1; subst h2; subst h3
      obtain ⟨hstem, hvne, hvdig, hdne⟩ := parseStem_eq_some hps
      refine ⟨?_, hvne, hvdig, hdne⟩
      rw [stripSuffix_eq_some hup, hstem]
      rfl
  | none =>
    cases hdn : stripSuffix cs sfxDown with
    | none => simp [parseMigrationFilename, hup, hdn] at h
    | some stem =>
      cases hps : parseStem stem with
      | none => simp [parseMigrationFilename, hup, hdn, hps] at h
      | some p =>
        obtain ⟨pv, pd⟩ := p
        simp only [parseMigrationFilename, hup, hdn, hps, Option.map_some', Option.some.injEq,
          Prod.mk.injEq] at h
        obtain ⟨h1, h2, h3⟩ := h
        subst h1; subst h2; subst h3
        obtain ⟨hstem, hvne, hvdig, hdne⟩ := parseStem_eq_some hps
        refine ⟨?_, hvne, hvdig, hdne⟩
        rw [stripSuffix_eq_some hdn, hstem]
        rfl

theorem digits_sep_inj (v : List Char) : ∀ (v1 xs ys : List Char),
    v.all Char.isDigit = true → v1.all Char.isDigit = true →
    v ++ '_' :: xs = v1 ++ '_' :: ys → v = v1 ∧ xs = ys := by
  induction v with
  | nil =>
    intro v1 xs ys _ hv1 h
    cases v1 with
    | nil => simpa using h
    | cons c w =>
      injection h with h1 h2
      rw [List.all_cons] at hv1
      rw [← h1] at hv1
      simp at hv1
  | cons c w ih =>
    intro v1 xs ys hv hv1 h
    cases v1 with
    | nil =>
      injection h with h1 h2
      rw [List.all_cons] at hv
      rw [h1] at hv
      simp at hv
    | cons c1 w1 =>
      injection h with h1 h2
      rw [List.all_cons, Bool.and_eq_true] at hv hv1
      obtain ⟨h3, h4⟩ := ih w1 xs ys hv.2 hv1.2 h2
      exact ⟨by rw [h1, h3], h4⟩

theorem migKey_inj {v v1 d d1 : List Char} (hv : v.all Char.isDigit = true)
    (hv1 : v1.all Char.isDigit = true) (h : migKey v d = migKey v1 d1) :
    v = v1 ∧ d = d1 := by
  have h2 : 'V' :: (v ++ '_' :: '_' :: d) = 'V' :: (v1 ++ '_' :: '_' :: d1) :=
    congrArg String.data h
  injection h2 with _ h3
  obtain ⟨h4, h5⟩ := digits_sep_inj v v1 ('_' :: d) ('_' :: d1) hv hv1 h3
  injection h5 with _ h6
  exact ⟨h4, h6⟩

theorem pathJoin_right_inj {dir a b : String} (h : pathJoin dir a = pathJoin dir b) : a = b := by
  have h2 : (dir ++ "/").data ++ a.data = (dir ++ "/").data ++ b.data := by
    have h3 := congrArg String.data h
    rw [pathJoin, pathJoin, str_data_append, str_data_append] at h3
    exact h3
  exact str_eq_of_data (List.append_cancel_left h2)

theorem upFileName_toKey {v d v1 d1 : List Char} (h : upFileName v d = upFileName v1 d1) :
    migKey v d = migKey v1 d1 := by
  have h2 : ('V' :: (v ++ '_' :: '_' :: d)) ++ sfxUp =
      ('V' :: (v1 ++ '_' :: '_' :: d1)) ++ sfxUp := congrArg String.data h
  exact congrArg String.mk (List.append_cancel_right h2)

/-! ## Invariants of the grouping map -/

/-- Invariant of a single entry of the grouping map: its key is the
`V{version}__{description}` string of some well-formed group whose
version and hyphenated name are the entry's fields, and whose `upPath`
is either still unset or the joined path of an up-script filename
present in `src`. -/
def EntryOk (dir : String) (src : List String) (p : String × MigrationFile) : Prop :=
  ∃ v d, v ≠ [] ∧ v.all Char.isDigit = true ∧ p.1 = migKey v d ∧
    p.2.version = String.mk v ∧ p.2.name = hyphenate d ∧
    (p.2.upPath = "" ∨
      (p.2.upPath = pathJoin dir (upFileName v d) ∧ upFileName v d ∈ src))

/-- Invariant of the grouping map: keys are pairwise distinct and every
entry is well formed. -/
def MapOk (dir : String) (src : List String) (m : List (String × MigrationFile)) : Prop :=
  m.Pairwise (fun p q => p.1 ≠ q.1) ∧ ∀ p ∈ m, EntryOk dir src p

theorem mapAssign_preserves {dir : String} {src : List String} {file : String}
    (hf : file ∈ src) {v d : List Char} {dirn : Direction}
    (hcs : file.data = ('V' :: (v ++ '_' :: '_' :: d)) ++ dirSuffix dirn)
    (hvdig : v.all Char.isDigit = true)
    {m1 : List (String × MigrationFile)} (h1 : MapOk dir src m1) :
    MapOk dir src (m1.map fun p =>
      if p.1 = migKey v d then (p.1, assignPath p.2 dirn (pathJoin dir file)) else p) := by
  have gfst : ∀ p : String × MigrationFile,
      (if p.1 = migKey v d then (p.1, assignPath p.2 dirn (pathJoin dir file)) else p).1 = p.1 := by
    intro p
    split <;> rfl
  constructor
  · rw [List.pairwise_map]
    refine h1.1.imp ?_
    intro a b hab
    rw [gfst, gfst]
    exact hab
  · intro q hq
    rcases List.mem_map.mp hq with ⟨p, hpm, hgp⟩
    obtain ⟨v0, d0, hv0ne, hv0dig, hkey0, hver, hname, hup⟩ := h1.2 p hpm
    by_cases hpk : p.1 = migKey v d
    · have hkk : migKey v0 d0 = migKey v d := hkey0.symm.trans hpk
      obtain ⟨hvv, hdd⟩ := migKey_inj hv0dig hvdig hkk
      subst hvv
      subst hdd
      rw [if_pos hpk] at hgp
      subst hgp
      cases dirn with
      | up =>
        have hfile : file = upFileName v0 d0 := str_eq_of_data (by rw [hcs]; rfl)
        exact ⟨v0, d0, hv0ne, hv0dig, hpk, hver, hname,
          Or.inr ⟨by rw [hfile]; rfl, by rw [← hfile]; exact hf⟩⟩
      | down =>
        exact ⟨v0, d0, hv0ne, hv0dig, hpk, hver, hname, hup⟩
    · rw [if_neg hpk] at hgp
      subst hgp
      exact ⟨v0, d0, hv0ne, hv0dig, hkey0, hver, hname, hup⟩

theorem processFile_preserves {dir : String} {src : List String} {file : String}
    (hf : file ∈ src) {m : List (String × MigrationFile)} (h : MapOk dir src m) :
    MapOk dir src (processFile dir m file) := by
  cases hp : parseMigrationFilename file.data with
  | none => simpa only [processFile, hp] using h
  | some t =>
    obtain ⟨v, d, dirn⟩ := t
    obtain ⟨hcs, hvne, hvdig, hdne⟩ := parseMigrationFilename_eq_some hp
    have h1 : MapOk dir src
        (if ∃ p ∈ m, p.1 = migKey v d then m else m ++ [(migKey v d, initEntry v d)]) := by
      split
      · exact h
      · rename_i hnotin
        constructor
        · rw [List.pairwise_append]
          refine ⟨h.1, List.pairwise_singleton _ _, ?_⟩
          intro a ha b hb
          have hb1 : b = (migKey v d, initEntry v d) := by simpa using hb
          rw [hb1]
          intro hak
          exact hnotin ⟨a, ha, hak⟩
        · intro p hp1
          rcases List.mem_append.mp hp1 with hp2 | hp2
          · exact h.2 p hp2
          · have hp3 : p = (migKey v d, initEntry v d) := by simpa using hp2
            subst hp3
            exact ⟨v, d, hvne, hvdig, rfl, rfl, rfl, Or.inl rfl⟩
    simpa only [processFile, hp] using mapAssign_preserves hf hcs hvdig h1

theorem foldl_processFile_ok (dir : String) (src : List String) :
    ∀ l : List String, (∀ f ∈ l, f ∈ src) → ∀ m, MapOk dir src m →
      MapOk dir src (l.foldl (processFile dir) m) := by
  intro l
  induction l with
  | nil => intro _ m h; exact h
  | cons f l1 ih =>
    intro hsub m h
    rw [List.foldl_cons]
    exact ih (fun g hg => hsub g (List.mem_cons_of_mem f hg)) _
      (processFile_preserves (hsub f (List.mem_cons_self f l1)) h)

theorem groups_ok (dir : String) (files : List String) :
    MapOk dir (files.insertionSort fileLE)
      ((files.insertionSort fileLE).foldl (processFile dir) []) :=
  foldl_processFile_ok dir _ _ (fun _ hg => hg) []
    ⟨List.Pairwise.nil, fun p hp => absurd hp (List.not_mem_nil p)⟩

/-! ## Helper lemmas on the lifecycle operations -/

theorem diff_eq_ok_of_match {hash : String → String} {id : String}
    {olds : SchemaVersionState} {news : SchemaVersionArgs}
    (h1 : olds.upSqlChecksum = hash news.upSql)
    (h2 : olds.downSqlChecksum = news.downSql.map hash) :
    diff hash id olds news = Except.ok { changes := false } := by
  simp [diff, h1, h2]

theorem diff_eq_error_up {hash : String → String} {id : String}
    {olds : SchemaVersionState} {news : SchemaVersionArgs}
    (h1 : olds.upSqlChecksum ≠ hash news.upSql) :
    diff hash id olds news = Except.error (upMismatchMsg news.version) := by
  simp [diff, h1]

theorem diff_eq_error_down {hash : String → String} {id : String}
    {olds : SchemaVersionState} {news : SchemaVersionArgs}
    (h1 : olds.upSqlChecksum = hash news.upSql)
    (h2 : olds.downSqlChecksum ≠ news.downSql.map hash) :
    diff hash id olds news = Except.error (downMismatchMsg news.version) := by
  simp [diff, h1, h2]

/-! ## Claim theorems -/

/-- C1: `diff` recomputes the fingerprints of the proposed up and down
script texts and returns no changes exactly when both recomputed
fingerprints equal the stored `upSqlChecksum` and `downSqlChecksum`;
if either differs it fails with an immutability-violation error rather
than reporting a change, and on an unmodified record (inputs whose
texts were fingerprinted at apply time by `create`) it always returns
no changes. -/
theorem diff_checksum_gate (hash : String → String) (id : String)
    (olds : SchemaVersionState) (news : SchemaVersionArgs) :
    (diff hash id olds news = Except.ok { changes := false } ↔
      (olds.upSqlChecksum = hash news.upSql ∧ olds.downSqlChecksum = news.downSql.map hash))
    ∧ ((olds.upSqlChecksum ≠ hash news.upSql ∨ olds.downSqlChecksum ≠ news.downSql.map hash) →
        ∃ e, diff hash id olds news = Except.error e ∧
          (e = upMismatchMsg news.version ∨ e = downMismatchMsg news.version))
    ∧ (∀ r, diff hash id olds news = Except.ok r → r = { changes := false })
    ∧ (∀ exec nowIso nowMs cr, create exec hash nowIso nowMs news = Except.ok cr →
        diff hash id cr.outs news = Except.ok { changes := false }) := by
  refine ⟨?_, ?_, ?_, ?_⟩
  · constructor
    · intro h
      by_cases h1 : olds.upSqlChecksum = hash news.upSql
      · by_cases h2 : olds.downSqlChecksum = news.downSql.map hash
        · exact ⟨h1, h2⟩
        · rw [diff_eq_error_down h1 h2] at h; cases h
      · rw [diff_eq_error_up h1] at h; cases h
    · intro ⟨h1, h2⟩
      exact diff_eq_ok_of_match h1 h2
  · intro h
    by_cases h1 : olds.upSqlChecksum = hash news.upSql
    · rcases h with h | h2
      · exact absurd h1 h
      · exact ⟨downMismatchMsg news.version, diff_eq_error_down h1 h2, Or.inr rfl⟩
    · exact ⟨upMismatchMsg news.version, diff_eq_error_up h1, Or.inl rfl⟩
  · intro r h
    by_cases h1 : olds.upSqlChecksum = hash news.upSql
    · by_cases h2 : olds.downSqlChecksum = news.downSql.map hash
      · rw [diff_eq_ok_of_match h1 h2] at h
        exact (Except.ok.injEq _ _).mp h.symm
      · rw [diff_eq_error_down h1 h2] at h; cases h
    · rw [diff_eq_error_up h1] at h; cases h
  · intro exec nowIso nowMs cr hc
    cases he : exec news.upSql with
    | error e => rw [create, he] at hc; cases hc
    | ok u =>
      rw [create, he] at hc
      have houts := congrArg CreateResult.outs ((Except.ok.injEq _ _).mp hc.symm)
      exact diff_eq_ok_of_match (by rw [houts]) (by rw [houts])

/-- C1 witness: a one-byte edit of the up script is rejected as an
immutability violation at a concrete input. -/
theorem diff_checksum_gate_witness :
    ∃ e, diff (fun s => s) "id0"
        { version := "001", name := "init", upSqlChecksum := "CREATE TABLE a ()",
          downSqlChecksum := none, appliedAt := "t0" }
        { version := "001", name := "init", upSql := "CREATE TABLE b ()",
          downSql := none, database := "db" } = Except.error e ∧
      (e = upMismatchMsg "001" ∨ e = downMismatchMsg "001") :=
  (diff_checksum_gate (fun s => s) "id0" _ _).2.1 (Or.inl (by decide))

/-- C6: when execution of the up script fails, `create` surfaces an
error wrapped with the migration's version and returns no created
record. -/
theorem create_failure_no_record (exec : String → Except String Unit)
    (hash : String → String) (nowIso : String) (nowMs : Nat)
    (inputs : SchemaVersionArgs) (e : String)
    (h : exec inputs.upSql = Except.error e) :
    create exec hash nowIso nowMs inputs = Except.error (failApplyMsg inputs.version e)
    ∧ ∀ r, create exec hash nowIso nowMs inputs ≠ Except.ok r := by
  constructor
  · rw [create, h]
  · intro r hr
    rw [create, h] at hr
    cases hr

/-- C6 witness: a failing executor yields the wrapped error at a
concrete input. -/
theorem create_failure_no_record_witness :
    create (fun _ => Except.error "connection refused") (fun s => s) "t0" 0
        { version := "001", name := "init", upSql := "CREATE TABLE a ()",
          downSql := none, database := "db" }
      = Except.error (failApplyMsg "001" "connection refused") :=
  (create_failure_no_record (fun _ => Except.error "connection refused") (fun s => s) "t0" 0
    { version := "001", name := "init", upSql := "CREATE TABLE a ()",
      downSql := none, database := "db" } "connection refused" rfl).1

/-- C8: `update` fails for every possible input; there is no input for
which it returns successfully. -/
theorem update_always_fails (id : String) (olds : SchemaVersionState)
    (news : SchemaVersionArgs) :
    update id olds news = Except.error (cannotUpdateMsg news.version)
    ∧ ∀ r, update id olds news ≠ Except.ok r :=
  ⟨rfl, fun _ h => by cases h⟩

/-- C8 witness: the rejection at a concrete input. -/
theorem update_always_fails_witness :
    update "id0"
        { version := "001", name := "init", upSqlChecksum := "U",
          downSqlChecksum := none, appliedAt := "t0" }
        { version := "001", name := "init", upSql := "U2",
          downSql := none, database := "db" }
      = Except.error (cannotUpdateMsg "001") :=
  (update_always_fails "id0" _ _).1

/-- C10: `diff` treats a change in down-script presence as drift: a
stored record without a down checksum against an input that supplies a
down script fails with an immutability-violation error, and
symmetrically for a stored down checksum against an input without a
down script; neither case is reported as detected changes. -/
theorem diff_down_presence_drift (hash : String → String) (id : String)
    (olds : SchemaVersionState) (news : SchemaVersionArgs)
    (h : (olds.downSqlChecksum = none ∧ news.downSql ≠ none) ∨
         (olds.downSqlChecksum ≠ none ∧ news.downSql = none)) :
    (∃ e, diff hash id olds news = Except.error e ∧
      (e = upMismatchMsg news.version ∨ e = downMismatchMsg news.version))
    ∧ ∀ r, diff hash id olds news ≠ Except.ok r := by
  have hdown : olds.downSqlChecksum ≠ news.downSql.map hash := by
    rcases h with ⟨h1, h2⟩ | ⟨h1, h2⟩
    · rcases Option.ne_none_iff_exists.mp h2 with ⟨s, hs⟩
      rw [h1, ← hs]
      simp
    · rw [h2]
      simpa using h1
  have herr : ∃ e, diff hash id olds news = Except.error e ∧
      (e = upMismatchMsg news.version ∨ e = downMismatchMsg news.version) := by
    by_cases h1 : olds.upSqlChecksum = hash news.upSql
    · exact ⟨downMismatchMsg news.version, diff_eq_error_down h1 hdown, Or.inr rfl⟩
    · exact ⟨upMismatchMsg news.version, diff_eq_error_up h1, Or.inl rfl⟩
  refine ⟨herr, ?_⟩
  rcases herr with ⟨e, he, _⟩
  intro r hr
  rw [he] at hr
  cases hr

/-- C10 witness: adding a down script to a record applied without one
fails at a concrete input. -/
theorem diff_down_presence_drift_witness :
    ∃ e, diff (fun s => s) "id0"
        { version := "001", name := "init", upSqlChecksum := "U",
          downSqlChecksum := none, appliedAt := "t0" }
        { version := "001", name := "init", upSql := "U",
          downSql := some "D", database := "db" } = Except.error e ∧
      (e = upMismatchMsg "001" ∨ e = downMismatchMsg "001") :=
  (diff_down_presence_drift (fun s => s) "id0" _ _ (Or.inl ⟨rfl, by decide⟩)).1

/-- C9: `delete` resolves the down script from the record's version
alone — its outcome is invariant under every change of the stored
record that keeps the version — and executes the file's current
content without comparing any fingerprint to the stored
`downSqlChecksum`. -/
theorem delete_ignores_down_checksum (dir : String) (listing : List String)
    (fs : String → Option String) (exec : String → Except String Unit)
    (id : String) (props props' : SchemaVersionState)
    (hv : props.version = props'.version) :
    delete dir listing fs exec id props = delete dir listing fs exec id props'
    ∧ ∀ m dp sql,
        (loadMigrationFiles dir listing).find? (fun mf => mf.version == props.version) = some m →
        m.downPath = some dp → fs dp = some sql → exec sql = Except.ok () →
        delete dir listing fs exec id props = Except.ok (DeleteOutcome.rolledBack sql) := by
  constructor
  · simp only [delete, hv]
  · intro m dp sql hf hd hfs he
    simp [delete, hf, hd, hfs, he]

/-- C9 witness: a modified down script (its fingerprint differs from
the stored checksum) is still executed, at a concrete input. -/
theorem delete_ignores_down_checksum_witness :
    delete "sql" ["V001__a.down.sql", "V001__a.up.sql"]
        (fun p => if p = "sql/V001__a.down.sql" then some "DROP TABLE b" else none)
        (fun _ => Except.ok ()) "id0"
        { version := "001", name := "a", upSqlChecksum := "U",
          downSqlChecksum := some "DROP TABLE a", appliedAt := "t0" }
      = Except.ok (DeleteOutcome.rolledBack "DROP TABLE b") :=
  (delete_ignores_down_checksum "sql" _ _ _ "id0" _
    { version := "001", name := "a", upSqlChecksum := "U",
      downSqlChecksum := some "DROP TABLE a", appliedAt := "t0" } rfl).2
    ⟨"001", "a", "sql/V001__a.up.sql", some "sql/V001__a.down.sql"⟩
    "sql/V001__a.down.sql" "DROP TABLE b" (by decide) rfl rfl rfl

/-- C7 counterexample: with two groups sharing version digits, a down
script for the version is resolvable (a catalog entry for "001" has an
existing down script), yet `delete` skips the rollback because the
first matching entry lacks one. -/
def cexListing : List String := ["V001__a.up.sql", "V001__b.down.sql", "V001__b.up.sql"]

/-- Filesystem for the C7 counterexample: only the down script of
group `V001__b` exists. -/
def cexFs : String → Option String :=
  fun p => if p = "sql/V001__b.down.sql" then some "DROP TABLE t" else none

theorem delete_resolvable_down_skipped_cex :
    ((⟨"001", "b", "sql/V001__b.up.sql", some "sql/V001__b.down.sql"⟩ : MigrationFile) ∈
        loadMigrationFiles "sql" cexListing
      ∧ cexFs "sql/V001__b.down.sql" = some "DROP TABLE t")
    ∧ delete "sql" cexListing cexFs (fun _ => Except.ok ()) "id0"
        { version := "001", name := "b", upSqlChecksum := "U",
          downSqlChecksum := some "C", appliedAt := "t0" }
      = Except.ok (DeleteOutcome.skipped (noDownMsg "001")) := by
  refine ⟨⟨by decide, rfl⟩, by rfl⟩

/-- C7 amended: `delete` dispatches on the first catalog entry whose
version equals the record's version: if no entry matches, or the first
matching entry has no down path, or its down path no longer exists,
delete completes without error, executes nothing, and logs the
skip warning; when the first matching entry has an existing down
script, delete executes its current content, propagating an execution
failure unchanged. -/
theorem delete_first_match_spec (dir : String) (listing : List String)
    (fs : String → Option String) (exec : String → Except String Unit)
    (id : String) (props : SchemaVersionState) :
    ((loadMigrationFiles dir listing).find? (fun mf => mf.version == props.version) = none →
      delete dir listing fs exec id props =
        Except.ok (DeleteOutcome.skipped (noDownMsg props.version)))
    ∧ (∀ m, (loadMigrationFiles dir listing).find? (fun mf => mf.version == props.version) = some m →
        m.downPath = none →
        delete dir listing fs exec id props =
          Except.ok (DeleteOutcome.skipped (noDownMsg props.version)))
    ∧ (∀ m dp, (loadMigrationFiles dir listing).find? (fun mf => mf.version == props.version) = some m →
        m.downPath = some dp → fs dp = none →
        delete dir listing fs exec id props =
          Except.ok (DeleteOutcome.skipped (noDownMsg props.version)))
    ∧ (∀ m dp sql, (loadMigrationFiles dir listing).find? (fun mf => mf.version == props.version) = some m →
        m.downPath = some dp → fs dp = some sql → exec sql = Except.ok () →
        delete dir listing fs exec id props = Except.ok (DeleteOutcome.rolledBack sql))
    ∧ (∀ m dp sql e, (loadMigrationFiles dir listing).find? (fun mf => mf.version == props.version) = some m →
        m.downPath = some dp → fs dp = some sql → exec sql = Except.error e →
        delete dir listing fs exec id props = Except.error e) := by
  refine ⟨?_, ?_, ?_, ?_, ?_⟩
  · intro hf
    simp [delete, hf]
  · intro m hf hd
    simp [delete, hf, hd]
  · intro m dp hf hd hfs
    simp [delete, hf, hd, hfs]
  · intro m dp sql hf hd hfs he
    simp [delete, hf, hd, hfs, he]
  · intro m dp sql e hf hd hfs he
    simp [delete, hf, hd, hfs, he]

/-- The resource list built by `buildResources` declares a linear
chain: each resource depends exactly on the pending `prev` edge or on
the resource immediately before it. -/
theorem buildResources_ok_spec (fs : String → Option String) (db : String) :
    ∀ (catalog : List MigrationFile) (prev : Option String) (rs : List ResourceDecl),
      buildResources fs db catalog prev = Except.ok rs →
      rs.length = catalog.length
      ∧ (∀ r, rs[0]? = some r → r.dependsOn = prev.toList)
      ∧ (∀ i p q, rs[i]? = some p → rs[i + 1]? = some q →
          q.dependsOn = [p.resourceName]) := by
  intro catalog
  induction catalog with
  | nil =>
    intro prev rs h
    simp only [buildResources] at h
    have : rs = [] := ((Except.ok.injEq _ _).mp h).symm
    subst this
    refine ⟨rfl, ?_, ?_⟩
    · intro r hr; cases hr
    · intro i p q hp _; cases i <;> cases hp
  | cons mf rest ih =>
    intro prev rs h
    rw [buildResources] at h
    cases hu : readSqlFile fs mf.upPath with
    | error e => rw [hu] at h; simp at h
    | ok upSql =>
      rw [hu] at h
      cases hd : readDownFile fs mf.downPath with
      | error e => rw [hd] at h; simp at h
      | ok downSql =>
        rw [hd] at h
        cases hr : buildResources fs db rest (some (basename mf.upPath ".sql")) with
        | error e => rw [hr] at h; simp at h
        | ok rs1 =>
          rw [hr] at h
          have hrs : rs = (⟨basename mf.upPath ".sql", mf.version, mf.name, upSql,
              downSql, db, prev.toList⟩ : ResourceDecl) :: rs1 :=
            ((Except.ok.injEq _ _).mp h).symm
          subst hrs
          obtain ⟨ih1, ih2, ih3⟩ := ih (some (basename mf.upPath ".sql")) rs1 hr
          refine ⟨by simpa using ih1, ?_, ?_⟩
          · intro r hr0
            have hrv : r = (⟨basename mf.upPath ".sql", mf.version, mf.name, upSql,
                downSql, db, prev.toList⟩ : ResourceDecl) := by
              simpa using hr0.symm
            rw [hrv]
          · intro i p q hp hq
            cases i with
            | zero =>
              have hpv : p = (⟨basename mf.upPath ".sql", mf.version, mf.name, upSql,
                  downSql, db, prev.toList⟩ : ResourceDecl) := by
                simpa using hp.symm
              have hq1 : rs1[0]? = some q := by simpa using hq
              rw [ih2 q hq1, hpv]
              rfl
            | succ j =>
              have hp1 : rs1[j]? = some p := by simpa using hp
              have hq1 : rs1[j + 1]? = some q := by simpa using hq
              exact ih3 j p q hp1 hq1

/-- C4: the resources built from a catalog declare exactly a linear
dependency chain in catalog order: the first resource declares no
dependency and every later resource declares a single dependsOn edge
naming the immediately preceding resource. -/
theorem createMigrationResources_chain (fs : String → Option String) (db : String)
    (catalog : List MigrationFile) (rs : List ResourceDecl)
    (h : createMigrationResources fs db catalog = Except.ok rs) :
    rs.length = catalog.length
    ∧ (∀ r, rs[0]? = some r → r.dependsOn = [])
    ∧ (∀ i p q, rs[i]? = some p → rs[i + 1]? = some q →
        q.dependsOn = [p.resourceName]) := by
  have hs := buildResources_ok_spec fs db catalog none rs h
  exact ⟨hs.1, fun r hr => hs.2.1 r hr, hs.2.2⟩

/-- Filesystem for the C4 witness: contents of the two up scripts. -/
def chainFs : String → Option String :=
  fun p => if p = "sql/V001__a.up.sql" then some "S1"
           else if p = "sql/V002__b.up.sql" then some "S2"
           else none

/-- Catalog for the C4 witness. -/
def chainCatalog : List MigrationFile :=
  [⟨"001", "a", "sql/V001__a.up.sql", none⟩, ⟨"002", "b", "sql/V002__b.up.sql", none⟩]

/-- Resource list built from `chainCatalog`. -/
def chainResources : List ResourceDecl :=
  [⟨"V001__a.up", "001", "a", "S1", none, "db", []⟩,
   ⟨"V002__b.up", "002", "b", "S2", none, "db", ["V001__a.up"]⟩]

/-- C4 witness: the chain property applied to a concrete two-entry
catalog. -/
theorem createMigrationResources_chain_witness :
    chainResources.length = chainCatalog.length :=
  (createMigrationResources_chain chainFs "db" chainCatalog chainResources (by rfl)).1

/-- C7 amended witness: a record whose version matches no catalog
entry is deleted as a warned no-op at a concrete input. -/
theorem delete_first_match_spec_witness :
    delete "sql" [] (fun _ => none) (fun _ => Except.ok ()) "id0"
        { version := "001", name := "a", upSqlChecksum := "U",
          downSqlChecksum := none, appliedAt := "t0" }
      = Except.ok (DeleteOutcome.skipped (noDownMsg "001")) :=
  (delete_first_match_spec "sql" [] _ _ "id0" _).1 rfl

/-- C5: a (version, description) group for which no up-script file was
found never appears in the catalog: every catalog entry carries the
joined path of an up-script filename present in the input listing,
whose parsed version digits and hyphenated description are the entry's
fields; discovery is total, so no error is raised. -/
theorem loadMigrationFiles_requires_up (dir : String) (files : List String)
    (mf : MigrationFile) (hmf : mf ∈ loadMigrationFiles dir files) :
    mf.upPath ≠ "" ∧ ∃ v d, v ≠ [] ∧ v.all Char.isDigit = true ∧
      mf.version = String.mk v ∧ mf.name = hyphenate d ∧
      mf.upPath = pathJoin dir (upFileName v d) ∧ upFileName v d ∈ files := by
  simp only [loadMigrationFiles] at hmf
  rw [List.mem_insertionSort, List.mem_filter] at hmf
  obtain ⟨hmem, hpred⟩ := hmf
  have hne : mf.upPath ≠ "" := of_decide_eq_true hpred
  rcases List.mem_map.mp hmem with ⟨p, hpm, hps⟩
  obtain ⟨v, d, hvne, hvdig, _, hver, hname, hup⟩ := (groups_ok dir files).2 p hpm
  rw [hps] at hver hname hup
  rcases hup with h0 | ⟨hpath, hin⟩
  · exact absurd h0 hne
  · exact ⟨hne, v, d, hvne, hvdig, hver, hname, hpath,
      (List.mem_insertionSort fileLE).mp hin⟩

/-- C5 witness: the catalog of a one-file listing, with its up file
exhibited. -/
theorem loadMigrationFiles_requires_up_witness :
    (⟨"001", "a", "sql/V001__a.up.sql", none⟩ : MigrationFile).upPath ≠ "" ∧
    ∃ v d, v ≠ [] ∧ v.all Char.isDigit = true ∧
      (⟨"001", "a", "sql/V001__a.up.sql", none⟩ : MigrationFile).version = String.mk v ∧
      (⟨"001", "a", "sql/V001__a.up.sql", none⟩ : MigrationFile).name = hyphenate d ∧
      (⟨"001", "a", "sql/V001__a.up.sql", none⟩ : MigrationFile).upPath =
        pathJoin "sql" (upFileName v d) ∧
      upFileName v d ∈ ["V001__a.up.sql"] :=
  loadMigrationFiles_requires_up "sql" ["V001__a.up.sql"] _ (by decide)

/-- C2 counterexample: two well-formed filenames with the same version
digits but different descriptions produce a catalog whose version
strings are not pairwise distinct. -/
theorem version_not_unique_cex :
    ((loadMigrationFiles "sql" ["V001__a.up.sql", "V001__b.up.sql"]).map
        (fun mf => mf.version)) = ["001", "001"]
    ∧ ¬ ((loadMigrationFiles "sql" ["V001__a.up.sql", "V001__b.up.sql"]).map
        (fun mf => mf.version)).Nodup := by
  constructor <;> decide

/-- C2 amended: what is unique per catalog is the group key, hence the
up-script path: no two catalog entries share the same `upPath` (version
strings alone may repeat when two filenames share version digits but
differ in description). -/
theorem loadMigrationFiles_upPath_distinct (dir : String) (files : List String) :
    (loadMigrationFiles dir files).Pairwise fun a b => a.upPath ≠ b.upPath := by
  have hsymm : ∀ {x y : MigrationFile}, x.upPath ≠ y.upPath → y.upPath ≠ x.upPath :=
    fun h => Ne.symm h
  have hgroups := groups_ok dir files
  have hpw : List.Pairwise
      (fun a b : MigrationFile => a.upPath = "" ∨ b.upPath = "" ∨ a.upPath ≠ b.upPath)
      (((files.insertionSort fileLE).foldl (processFile dir) []).map Prod.snd) := by
    rw [List.pairwise_map]
    refine hgroups.1.imp_of_mem ?_
    intro p q hpm hqm hpq
    obtain ⟨vp, dp, _, hvpd, hkp, _, _, hupp⟩ := hgroups.2 p hpm
    obtain ⟨vq, dq, _, hvqd, hkq, _, _, hupq⟩ := hgroups.2 q hqm
    rcases hupp with hp0 | ⟨hpu, _⟩
    · exact Or.inl hp0
    rcases hupq with hq0 | ⟨hqu, _⟩
    · exact Or.inr (Or.inl hq0)
    refine Or.inr (Or.inr ?_)
    rw [hpu, hqu]
    intro heq
    exact hpq (hkp.trans ((upFileName_toKey (pathJoin_right_inj heq)).trans hkq.symm))
  have hfil := hpw.filter fun mf => decide (mf.upPath ≠ "")
  have hfil2 : List.Pairwise (fun a b : MigrationFile => a.upPath ≠ b.upPath)
      ((((files.insertionSort fileLE).foldl (processFile dir) []).map Prod.snd).filter
        fun mf => decide (mf.upPath ≠ "")) := by
    refine hfil.imp_of_mem ?_
    intro a b ha hb hab
    have hane : a.upPath ≠ "" := of_decide_eq_true (List.mem_filter.mp ha).2
    have hbne : b.upPath ≠ "" := of_decide_eq_true (List.mem_filter.mp hb).2
    rcases hab with h0 | h0 | h0
    · exact absurd h0 hane
    · exact absurd h0 hbne
    · exact h0
  simp only [loadMigrationFiles]
  exact (List.Perm.pairwise_iff hsymm (List.perm_insertionSort vLE _)).mpr hfil2

/-- C3: the catalog is sorted ascending by numeric comparison of the
version digit strings, and discovery's output is the same for every
permutation of the directory listing. -/
theorem loadMigrationFiles_sorted_perm_invariant (dir : String) (l1 l2 : List String)
    (h : l1.Perm l2) :
    List.Sorted vLE (loadMigrationFiles dir l1)
    ∧ loadMigrationFiles dir l1 = loadMigrationFiles dir l2 := by
  constructor
  · simp only [loadMigrationFiles]
    exact List.sorted_insertionSort vLE _
  · have hs : l1.insertionSort fileLE = l2.insertionSort fileLE :=
      List.eq_of_perm_of_sorted
        ((List.perm_insertionSort fileLE l1).trans
          (h.trans (List.perm_insertionSort fileLE l2).symm))
        (List.sorted_insertionSort fileLE l1) (List.sorted_insertionSort fileLE l2)
    simp only [loadMigrationFiles, hs]

/-- C3 witness: numeric order ("2" before "10") and permutation
invariance on a concrete three-file listing. -/
theorem loadMigrationFiles_sorted_perm_invariant_witness :
    List.Sorted vLE
      (loadMigrationFiles "sql" ["V2__b.up.sql", "V10__c.up.sql", "V1__a.up.sql"])
    ∧ loadMigrationFiles "sql" ["V2__b.up.sql", "V10__c.up.sql", "V1__a.up.sql"] =
        loadMigrationFiles "sql" ["V1__a.up.sql", "V2__b.up.sql", "V10__c.up.sql"] :=
  loadMigrationFiles_sorted_perm_invariant "sql"
    ["V2__b.up.sql", "V10__c.up.sql", "V1__a.up.sql"]
    ["V1__a.up.sql", "V2__b.up.sql", "V10__c.up.sql"] (by decide)

end PgMigration
